import Mathlib

/-
Verification of the grade-target optimizer in `cwa_app.py`
(`predict_scores_cvxpy`, lines 140-186).

The Python function receives a list of course dicts `{"name", "credit"}`
and three scalars, computes `required_points`, formulates the linear
program

    minimize    credits @ scores
    subject to  credits @ scores >= required_points, 0 <= scores <= 100

hands it to the external cvxpy library (`prob.solve()`), and shapes the
result: when `prob.status` is optimal or optimal_inaccurate and
`scores.value` is present, each score is rounded to two decimals
(numpy rounds half to even); otherwise every score is the string "N/A".
The raw `prob.status` string is returned unchanged.

Embedding choices. Numbers are rationals. cvxpy is an external library,
not part of this repository, so `prob.solve()` is modelled as an exact
oracle for the linear program written in the source: `Feasible` and
`IsOptimal` state the constraint system of lines 157-161 and optimality
of the objective of line 154; `idealSolve` is a concrete executable
oracle returning the canonical optimal point (all scores equal), proved
sound against `IsOptimal` in `idealSolve_sound`, and theorems about
returned score values are additionally proved for an arbitrary optimal
point wherever the value matters. cvxpy status constants are the string
values cvxpy documents ("optimal", "infeasible", "optimal_inaccurate").
-/

namespace CWA

/-- A course row as submitted by the form in cwa_app.py: a dict with a
"name" and a "credit" entry (lines 118-122). -/
structure Course where
  name : String
  credit : ℚ
  deriving DecidableEq, Repr

/-- The "score" field of one result entry (lines 171-184): either a
number or the literal string "N/A". -/
inductive Score where
  | num : ℚ → Score
  | na : Score
  deriving DecidableEq, Repr

/-- One entry of the `results` list built at lines 168-185:
`{"name": ..., "credit": ..., "score": ...}`. -/
structure ResultEntry where
  name : String
  credit : ℚ
  score : Score
  deriving DecidableEq, Repr

/-- cvxpy constant `cp.OPTIMAL`. -/
def OPTIMAL : String := "optimal"

/-- cvxpy constant `cp.INFEASIBLE`. -/
def INFEASIBLE : String := "infeasible"

/-- cvxpy constant `cp.OPTIMAL_INACCURATE`. -/
def OPTIMAL_INACCURATE : String := "optimal_inaccurate"

/-- The credit-weighted sum `credits @ scores` of lines 154 and 158
(numpy inner product of two equal-length vectors; on unequal lengths it
truncates to the common prefix, matching `List.zipWith`). -/
def dot (a b : List ℚ) : ℚ :=
  (List.zipWith (fun x y => x * y) a b).sum

/-- Lines 144-148: `prev_points = current_cwa * current_total_credits`,
`total_credits_after = current_total_credits + credits.sum()`,
`target_points = target_cwa * total_credits_after`,
`required_points = target_points - prev_points`. -/
def requiredPoints (courses : List Course)
    (current_total_credits current_cwa target_cwa : ℚ) : ℚ :=
  let credits := courses.map fun c => c.credit
  let prev_points := current_cwa * current_total_credits
  let total_credits_after := current_total_credits + credits.sum
  let target_points := target_cwa * total_credits_after
  target_points - prev_points

/-- The constraint system of lines 157-161: a score vector of the right
length, each component in [0, 100], whose credit-weighted sum meets
`required_points`. -/
def Feasible (credits : List ℚ) (required : ℚ) (s : List ℚ) : Prop :=
  s.length = credits.length ∧ (∀ x ∈ s, 0 ≤ x ∧ x ≤ 100) ∧ required ≤ dot credits s

/-- Optimality for the objective of line 154 (`Minimize(credits @ scores)`)
over the constraint system of lines 157-161. -/
def IsOptimal (credits : List ℚ) (required : ℚ) (s : List ℚ) : Prop :=
  Feasible credits required s ∧ ∀ t, Feasible credits required t → dot credits s ≤ dot credits t

/-- Model of `prob.solve()` (line 164): an exact oracle for the linear
program of lines 151-163. It reports cvxpy status "optimal" together
with the canonical optimal point (every score equal) when the program is
solvable, and "infeasible" with no value otherwise; `idealSolve_sound`
below proves this behaviour correct against `IsOptimal`/`Feasible`. -/
def idealSolve (credits : List ℚ) (required : ℚ) : String × Option (List ℚ) :=
  if required ≤ 0 then (OPTIMAL, some (credits.map fun _ => 0))
  else if required ≤ 100 * credits.sum then
    (OPTIMAL, some (credits.map fun _ => required / credits.sum))
  else (INFEASIBLE, none)

/-- numpy round-half-to-even to an integer, the rounding mode of
`np.round` used at line 174. -/
def roundHalfEven (q : ℚ) : ℤ :=
  if q - ⌊q⌋ < 1/2 then ⌊q⌋
  else if 1/2 < q - ⌊q⌋ then ⌊q⌋ + 1
  else if ⌊q⌋ % 2 = 0 then ⌊q⌋ else ⌊q⌋ + 1

/-- `np.round(x, 2)` of line 174: round half to even at two decimal
places. -/
def round2 (q : ℚ) : ℚ :=
  (roundHalfEven (q * 100) : ℚ) / 100

/-- Lines 168-186: build one result entry per course. When the status is
in `[cp.OPTIMAL, cp.OPTIMAL_INACCURATE]` and `scores.value` is not None,
each score is `np.round(scores.value[i], 2)`; otherwise every score is
the string "N/A". The status is returned unchanged in both branches. -/
def shapeResults (courses : List Course) (status : String)
    (value : Option (List ℚ)) : List ResultEntry × String :=
  match value with
  | some v =>
      if status = OPTIMAL ∨ status = OPTIMAL_INACCURATE then
        (List.zipWith (fun c x => (⟨c.name, c.credit, Score.num (round2 x)⟩ : ResultEntry))
          courses v, status)
      else
        (courses.map fun c => (⟨c.name, c.credit, Score.na⟩ : ResultEntry), status)
  | none => (courses.map fun c => (⟨c.name, c.credit, Score.na⟩ : ResultEntry), status)

/-- `predict_scores_cvxpy` (lines 140-186): compute `required_points`
from the inputs, solve the linear program, and shape the results. -/
def predict_scores_cvxpy (courses : List Course)
    (current_total_credits current_cwa target_cwa : ℚ) :
    List ResultEntry × String :=
  let credits := courses.map fun c => c.credit
  let required_points :=
    requiredPoints courses current_total_credits current_cwa target_cwa
  let solved := idealSolve credits required_points
  shapeResults courses solved.1 solved.2

/-- Numeric reading of a score field; "N/A" scores read as 0. Used only
to state weighted totals of result lists whose scores are numeric. -/
def scoreValue : Score → ℚ
  | Score.num q => q
  | Score.na => 0

/-- Credit-weighted total of a result list, `sum(credit_i * score_i)`. -/
def resultTotal (rs : List ResultEntry) : ℚ :=
  (rs.map fun r => r.credit * scoreValue r.score).sum

/-- Unfolding of `dot` on cons cells. -/
theorem dot_cons (a b : ℚ) (as bs : List ℚ) :
    dot (a :: as) (b :: bs) = a * b + dot as bs := by
  simp [dot]

/-- `predict_scores_cvxpy` is the composition of the points computation,
the solve, and the result shaping. -/
theorem predict_eq (courses : List Course) (ctc cur target : ℚ) :
    predict_scores_cvxpy courses ctc cur target =
      shapeResults courses
        (idealSolve (courses.map fun c => c.credit)
          (requiredPoints courses ctc cur target)).1
        (idealSolve (courses.map fun c => c.credit)
          (requiredPoints courses ctc cur target)).2 := rfl

/-- Solve branch taken when `required_points <= 0`. -/
theorem idealSolve_nonpos {credits : List ℚ} {required : ℚ} (h : required ≤ 0) :
    idealSolve credits required = (OPTIMAL, some (credits.map fun _ => 0)) := by
  unfold idealSolve
  rw [if_pos h]

/-- Solve branch taken when `0 < required_points <= 100 * sum credits`. -/
theorem idealSolve_mid {credits : List ℚ} {required : ℚ} (h0 : ¬ required ≤ 0)
    (h1 : required ≤ 100 * credits.sum) :
    idealSolve credits required =
      (OPTIMAL, some (credits.map fun _ => required / credits.sum)) := by
  unfold idealSolve
  rw [if_neg h0, if_pos h1]

/-- Solve branch taken when `required_points > 100 * sum credits`. -/
theorem idealSolve_high {credits : List ℚ} {required : ℚ} (h0 : ¬ required ≤ 0)
    (h1 : ¬ required ≤ 100 * credits.sum) :
    idealSolve credits required = (INFEASIBLE, none) := by
  unfold idealSolve
  rw [if_neg h0, if_neg h1]

/-- Shaping when the solver supplies no values: every score is "N/A". -/
theorem shapeResults_none (courses : List Course) (st : String) :
    shapeResults courses st none =
      (courses.map fun c => (⟨c.name, c.credit, Score.na⟩ : ResultEntry), st) := rfl

/-- Shaping in the optimal-family branch of line 169. -/
theorem shapeResults_some_opt (courses : List Course) (st : String) (v : List ℚ)
    (h : st = OPTIMAL ∨ st = OPTIMAL_INACCURATE) :
    shapeResults courses st (some v) =
      (List.zipWith (fun c x => (⟨c.name, c.credit, Score.num (round2 x)⟩ : ResultEntry))
        courses v, st) := by
  simp only [shapeResults]
  rw [if_pos h]

/-- Shaping in the non-optimal branch of line 178. -/
theorem shapeResults_some_not_opt (courses : List Course) (st : String) (v : List ℚ)
    (h : ¬ (st = OPTIMAL ∨ st = OPTIMAL_INACCURATE)) :
    shapeResults courses st (some v) =
      (courses.map fun c => (⟨c.name, c.credit, Score.na⟩ : ResultEntry), st) := by
  simp only [shapeResults]
  rw [if_neg h]

/-- Evaluation rule for `roundHalfEven` when the argument sits strictly
below the halfway point. -/
theorem roundHalfEven_eq_of_half (q : ℚ) (z : ℤ) (h1 : (z : ℚ) ≤ q) (h2 : q < z + 1/2) :
    roundHalfEven q = z := by
  have hf : ⌊q⌋ = z := Int.floor_eq_iff.mpr ⟨h1, by linarith⟩
  unfold roundHalfEven
  rw [hf, if_pos]
  linarith

/-- Evaluation rule for `round2` when the scaled argument sits strictly
below the halfway point. -/
theorem round2_eq_of_half (q : ℚ) (z : ℤ) (h1 : (z : ℚ) ≤ q * 100) (h2 : q * 100 < z + 1/2) :
    round2 q = z / 100 := by
  unfold round2
  rw [roundHalfEven_eq_of_half (q * 100) z h1 h2]

/-- `roundHalfEven` never moves its argument down by more than 1/2. -/
theorem roundHalfEven_ge (q : ℚ) : q - 1/2 ≤ (roundHalfEven q : ℚ) := by
  have hfl : (⌊q⌋ : ℚ) ≤ q := Int.floor_le q
  have hfu : q < ⌊q⌋ + 1 := Int.lt_floor_add_one q
  unfold roundHalfEven
  split_ifs <;> push_cast <;> linarith

/-- `roundHalfEven` never moves its argument up by more than 1/2. -/
theorem roundHalfEven_le (q : ℚ) : (roundHalfEven q : ℚ) ≤ q + 1/2 := by
  have hfl : (⌊q⌋ : ℚ) ≤ q := Int.floor_le q
  have hfu : q < ⌊q⌋ + 1 := Int.lt_floor_add_one q
  unfold roundHalfEven
  split_ifs with hb1 hb2 hb3 <;> push_cast <;> linarith

/-- `roundHalfEven` of a non-negative number is non-negative. -/
theorem roundHalfEven_nonneg {q : ℚ} (h : 0 ≤ q) : 0 ≤ roundHalfEven q := by
  have hfl : 0 ≤ ⌊q⌋ := Int.floor_nonneg.mpr h
  unfold roundHalfEven
  split_ifs <;> omega

/-- `roundHalfEven` never exceeds an integer bound of its argument. -/
theorem roundHalfEven_le_int {q : ℚ} {n : ℤ} (h : q ≤ (n : ℚ)) : roundHalfEven q ≤ n := by
  have hfl : ⌊q⌋ ≤ n := by
    have := Int.floor_le_floor h
    simpa using this
  unfold roundHalfEven
  split_ifs with hb1 hb2 hb3
  · exact hfl
  · have hfq : (⌊q⌋ : ℚ) < q := by linarith
    have hlt : ⌊q⌋ < n := by exact_mod_cast hfq.trans_le h
    omega
  · exact hfl
  · have hfq : (⌊q⌋ : ℚ) < q := by linarith
    have hlt : ⌊q⌋ < n := by exact_mod_cast hfq.trans_le h
    omega

/-- Two-decimal rounding moves a value down by at most 1/200. -/
theorem round2_ge (q : ℚ) : q - 1/200 ≤ round2 q := by
  have h := roundHalfEven_ge (q * 100)
  unfold round2
  rw [le_div_iff₀ (by norm_num : (0:ℚ) < 100)]
  linarith

/-- Two-decimal rounding moves a value up by at most 1/200. -/
theorem round2_le (q : ℚ) : round2 q ≤ q + 1/200 := by
  have h := roundHalfEven_le (q * 100)
  unfold round2
  rw [div_le_iff₀ (by norm_num : (0:ℚ) < 100)]
  linarith

/-- Two-decimal rounding keeps non-negative values non-negative. -/
theorem round2_nonneg {q : ℚ} (h : 0 ≤ q) : 0 ≤ round2 q := by
  have h2 : (0:ℤ) ≤ roundHalfEven (q * 100) :=
    roundHalfEven_nonneg (mul_nonneg h (by norm_num))
  unfold round2
  positivity

/-- Two-decimal rounding keeps values at most 100. -/
theorem round2_le_hundred {q : ℚ} (h : q ≤ 100) : round2 q ≤ 100 := by
  have h2 : q * 100 ≤ ((10000 : ℤ) : ℚ) := by push_cast; linarith
  have h3 := roundHalfEven_le_int h2
  have h4 : ((roundHalfEven (q * 100) : ℤ) : ℚ) ≤ ((10000 : ℤ) : ℚ) := by exact_mod_cast h3
  unfold round2
  rw [div_le_iff₀ (by norm_num : (0:ℚ) < 100)]
  push_cast at h4 ⊢
  linarith

/-- A rounded score times 100 is an integer: the score has at most two
decimal places. -/
theorem round2_mul_hundred (q : ℚ) : round2 q * 100 = ((roundHalfEven (q * 100) : ℤ) : ℚ) := by
  unfold round2
  field_simp

/-- `round2` fixes 0. -/
theorem round2_zero : round2 0 = 0 := by
  rw [round2_eq_of_half 0 0 (by norm_num) (by norm_num)]
  norm_num

/-- A dot product of non-negative vectors is non-negative. -/
theorem dot_nonneg {a b : List ℚ} (ha : ∀ x ∈ a, 0 ≤ x) (hb : ∀ x ∈ b, 0 ≤ x) :
    0 ≤ dot a b := by
  induction a generalizing b with
  | nil => simp [dot]
  | cons a0 as ih =>
    cases b with
    | nil => simp [dot]
    | cons b0 bs =>
      rw [dot_cons]
      have h1 : 0 ≤ a0 * b0 :=
        mul_nonneg (ha a0 (List.mem_cons_self a0 as)) (hb b0 (List.mem_cons_self b0 bs))
      have h2 : 0 ≤ dot as bs :=
        ih (fun x hx => ha x (List.mem_cons_of_mem _ hx))
          (fun x hx => hb x (List.mem_cons_of_mem _ hx))
      linarith

/-- With non-negative weights and scores capped at 100, the weighted sum
is capped at 100 times the total weight. -/
theorem dot_le_hundred {a b : List ℚ} (ha : ∀ x ∈ a, 0 ≤ x) (hb : ∀ x ∈ b, x ≤ 100)
    (hlen : b.length = a.length) : dot a b ≤ 100 * a.sum := by
  induction a generalizing b with
  | nil => simp [dot]
  | cons a0 as ih =>
    cases b with
    | nil => simp at hlen
    | cons b0 bs =>
      rw [dot_cons, List.sum_cons]
      have h0 : 0 ≤ a0 := ha a0 (List.mem_cons_self a0 as)
      have h1 : a0 * b0 ≤ a0 * 100 :=
        mul_le_mul_of_nonneg_left (hb b0 (List.mem_cons_self b0 bs)) h0
      have h2 : dot as bs ≤ 100 * as.sum :=
        ih (fun x hx => ha x (List.mem_cons_of_mem _ hx))
          (fun x hx => hb x (List.mem_cons_of_mem _ hx)) (by simpa using hlen)
      linarith

/-- Dot product against a constant vector. -/
theorem dot_map_const (a : List ℚ) (t : ℚ) : dot a (a.map fun _ => t) = t * a.sum := by
  induction a with
  | nil => simp [dot]
  | cons a0 as ih =>
    rw [List.map_cons, dot_cons, ih, List.sum_cons]
    ring

/-- Rounding every score to two decimals lowers the weighted sum by at
most `sum a / 200` when the weights are non-negative. -/
theorem dot_map_round2_ge {a b : List ℚ} (ha : ∀ x ∈ a, 0 ≤ x)
    (hlen : b.length = a.length) :
    dot a b - a.sum / 200 ≤ dot a (b.map round2) := by
  induction a generalizing b with
  | nil => simp [dot]
  | cons a0 as ih =>
    cases b with
    | nil => simp at hlen
    | cons b0 bs =>
      rw [List.map_cons, dot_cons, dot_cons, List.sum_cons]
      have h0 : 0 ≤ a0 := ha a0 (List.mem_cons_self a0 as)
      have h1 : a0 * (b0 - 1/200) ≤ a0 * round2 b0 :=
        mul_le_mul_of_nonneg_left (round2_ge b0) h0
      have hexp : a0 * (b0 - 1/200) = a0 * b0 - a0 / 200 := by ring
      have h2 : dot as bs - as.sum / 200 ≤ dot as (bs.map round2) :=
        ih (fun x hx => ha x (List.mem_cons_of_mem _ hx)) (by simpa using hlen)
      rw [hexp] at h1
      have hsplit : (a0 + as.sum) / 200 = a0 / 200 + as.sum / 200 := by ring
      linarith

/-- Rounding every score to two decimals raises the weighted sum by at
most `sum a / 200` when the weights are non-negative. -/
theorem dot_map_round2_le {a b : List ℚ} (ha : ∀ x ∈ a, 0 ≤ x)
    (hlen : b.length = a.length) :
    dot a (b.map round2) ≤ dot a b + a.sum / 200 := by
  induction a generalizing b with
  | nil => simp [dot]
  | cons a0 as ih =>
    cases b with
    | nil => simp at hlen
    | cons b0 bs =>
      rw [List.map_cons, dot_cons, dot_cons, List.sum_cons]
      have h0 : 0 ≤ a0 := ha a0 (List.mem_cons_self a0 as)
      have h1 : a0 * round2 b0 ≤ a0 * (b0 + 1/200) :=
        mul_le_mul_of_nonneg_left (round2_le b0) h0
      have hexp : a0 * (b0 + 1/200) = a0 * b0 + a0 / 200 := by ring
      have h2 : dot as (bs.map round2) ≤ dot as bs + as.sum / 200 :=
        ih (fun x hx => ha x (List.mem_cons_of_mem _ hx)) (by simpa using hlen)
      rw [hexp] at h1
      have hsplit : (a0 + as.sum) / 200 = a0 / 200 + as.sum / 200 := by ring
      linarith

/-- The all-zero score vector is feasible whenever the requirement is
non-positive. -/
theorem feasible_zeros {credits : List ℚ} {required : ℚ} (h : required ≤ 0) :
    Feasible credits required (credits.map fun _ => 0) := by
  refine ⟨by simp, ?_, ?_⟩
  · intro x hx
    obtain ⟨c, _, rfl⟩ := List.mem_map.mp hx
    exact ⟨le_refl 0, by norm_num⟩
  · rw [dot_map_const]
    simpa using h

/-- When `0 < required <= 100 * sum credits`, the uniform score vector
`required / sum credits` is feasible and meets the requirement exactly. -/
theorem feasible_uniform {credits : List ℚ} {required : ℚ}
    (hsum : 0 < credits.sum) (h0 : 0 < required) (h100 : required ≤ 100 * credits.sum) :
    Feasible credits required (credits.map fun _ => required / credits.sum) ∧
    dot credits (credits.map fun _ => required / credits.sum) = required := by
  have ht0 : 0 ≤ required / credits.sum := div_nonneg h0.le hsum.le
  have ht1 : required / credits.sum ≤ 100 := by
    rw [div_le_iff₀ hsum]
    linarith
  have hd : dot credits (credits.map fun _ => required / credits.sum) = required := by
    rw [dot_map_const]
    exact div_mul_cancel₀ required hsum.ne'
  refine ⟨⟨by simp, ?_, hd.ge⟩, hd⟩
  intro x hx
  obtain ⟨c, _, rfl⟩ := List.mem_map.mp hx
  exact ⟨ht0, ht1⟩

/-- When the requirement exceeds the maximum achievable weighted total,
the constraint system has no solution. -/
theorem not_feasible_of_gt {credits : List ℚ} {required : ℚ}
    (hc : ∀ x ∈ credits, 0 ≤ x) (h : 100 * credits.sum < required) :
    ¬ ∃ s, Feasible credits required s := by
  rintro ⟨s, hlen, hbox, hdot⟩
  have hle := dot_le_hundred hc (fun x hx => (hbox x hx).2) hlen
  linarith

/-- Any optimal point of a solvable instance attains exactly the
requirement: the minimum weighted total is `required_points` and it is
unique. -/
theorem optimal_value_eq {credits s : List ℚ} {required : ℚ}
    (hsum : 0 < credits.sum) (h0 : 0 < required) (h100 : required ≤ 100 * credits.sum)
    (hopt : IsOptimal credits required s) : dot credits s = required := by
  have hu := feasible_uniform hsum h0 h100
  have hle : dot credits s ≤ required := hu.2 ▸ hopt.2 _ hu.1
  exact le_antisymm hle hopt.1.2.2

/-- A zero dot product of a positive vector against a non-negative one
forces every component of the latter to vanish. -/
theorem eq_zero_of_dot_eq_zero {a s : List ℚ} (ha : ∀ x ∈ a, 0 < x)
    (hs : ∀ x ∈ s, 0 ≤ x) (hlen : s.length = a.length) (hd : dot a s = 0) :
    ∀ x ∈ s, x = 0 := by
  induction a generalizing s with
  | nil =>
    cases s with
    | nil => intro x hx; simp at hx
    | cons y ys => simp at hlen
  | cons a0 as ih =>
    cases s with
    | nil => intro x hx; simp at hx
    | cons y ys =>
      rw [dot_cons] at hd
      have hy : 0 ≤ y := hs y (List.mem_cons_self y ys)
      have ha0 : 0 < a0 := ha a0 (List.mem_cons_self a0 as)
      have h1 : 0 ≤ a0 * y := mul_nonneg ha0.le hy
      have h2 : 0 ≤ dot as ys :=
        dot_nonneg (fun x hx => (ha x (List.mem_cons_of_mem _ hx)).le)
          (fun x hx => hs x (List.mem_cons_of_mem _ hx))
      have hy0 : y = 0 := by
        have hz : a0 * y = 0 := by linarith
        rcases mul_eq_zero.mp hz with h | h
        · exact absurd h ha0.ne'
        · exact h
      intro x hx
      rcases List.mem_cons.mp hx with rfl | hx2
      · exact hy0
      · exact ih (fun z hz => ha z (List.mem_cons_of_mem _ hz))
          (fun z hz => hs z (List.mem_cons_of_mem _ hz)) (by simpa using hlen)
          (by linarith) x hx2

/-- Under every optimum with positive weights and non-positive
requirement, all scores are zero: the objective of line 154 forces the
trivial solution. -/
theorem optimal_zero_scores {credits s : List ℚ} {required : ℚ}
    (hpos : ∀ x ∈ credits, 0 < x) (hreq : required ≤ 0)
    (hopt : IsOptimal credits required s) : ∀ x ∈ s, x = 0 := by
  have hz : Feasible credits required (credits.map fun _ => 0) := feasible_zeros hreq
  have h1 : dot credits s ≤ dot credits (credits.map fun _ => 0) := hopt.2 _ hz
  rw [dot_map_const, zero_mul] at h1
  have hbox := hopt.1.2.1
  have h2 : 0 ≤ dot credits s :=
    dot_nonneg (fun x hx => (hpos x hx).le) (fun x hx => (hbox x hx).1)
  exact eq_zero_of_dot_eq_zero hpos (fun x hx => (hbox x hx).1) hopt.1.1
    (le_antisymm h1 h2)

/-- Soundness of the solve oracle: with non-negative weights it either
reports "optimal" together with a genuinely optimal point of the linear
program of lines 151-163, or reports "infeasible" exactly when no score
vector satisfies the constraints. -/
theorem idealSolve_sound {credits : List ℚ} {required : ℚ}
    (hc : ∀ x ∈ credits, 0 ≤ x) :
    (∃ v, idealSolve credits required = (OPTIMAL, some v) ∧ IsOptimal credits required v) ∨
    (idealSolve credits required = (INFEASIBLE, none) ∧
      ¬ ∃ s, Feasible credits required s) := by
  by_cases h0 : required ≤ 0
  · left
    refine ⟨credits.map fun _ => 0, idealSolve_nonpos h0, feasible_zeros h0, ?_⟩
    intro t ht
    rw [dot_map_const, zero_mul]
    exact dot_nonneg hc fun x hx => (ht.2.1 x hx).1
  · by_cases h100 : required ≤ 100 * credits.sum
    · left
      have hsum : 0 < credits.sum := by
        by_contra hns
        push_neg at hns
        have : (100:ℚ) * credits.sum ≤ 0 := by nlinarith
        exact h0 (by linarith)
      obtain ⟨hfeas, hd⟩ := feasible_uniform hsum (not_le.mp h0) h100
      refine ⟨credits.map fun _ => required / credits.sum, idealSolve_mid h0 h100,
        hfeas, ?_⟩
      intro t ht
      rw [hd]
      exact ht.2.2
    · right
      exact ⟨idealSolve_high h0 h100, not_feasible_of_gt hc (not_le.mp h100)⟩

/-- The weighted total of a shaped optimal result list is the dot
product of the credits with the rounded scores. -/
theorem resultTotal_zipWith (courses : List Course) (v : List ℚ) :
    resultTotal (List.zipWith
        (fun c x => (⟨c.name, c.credit, Score.num (round2 x)⟩ : ResultEntry)) courses v) =
      dot (courses.map fun c => c.credit) (v.map round2) := by
  induction courses generalizing v with
  | nil => simp [resultTotal, dot]
  | cons c cs ih =>
    cases v with
    | nil => simp [resultTotal, dot]
    | cons x xs =>
      rw [List.zipWith_cons_cons, List.map_cons, List.map_cons, dot_cons]
      rw [resultTotal, List.map_cons, List.sum_cons]
      exact congrArg (fun y => c.credit * round2 x + y) (ih xs)

/-- The contract of one result entry against its course: name and
credit are copied unchanged, and the score is either the "N/A" marker or
a number in [0, 100] with at most two decimal places. -/
def EntryOk (c : Course) (r : ResultEntry) : Prop :=
  r.name = c.name ∧ r.credit = c.credit ∧
    (r.score = Score.na ∨
      ∃ q, r.score = Score.num q ∧ 0 ≤ q ∧ q ≤ 100 ∧ ∃ k : ℤ, q * 100 = (k : ℚ))

/-- The "N/A" shaping branch satisfies the per-entry contract. -/
theorem forall₂_na (courses : List Course) :
    List.Forall₂ EntryOk courses
      (courses.map fun c => (⟨c.name, c.credit, Score.na⟩ : ResultEntry)) := by
  induction courses with
  | nil => exact List.Forall₂.nil
  | cons c cs ih => exact List.Forall₂.cons ⟨rfl, rfl, Or.inl rfl⟩ ih

/-- The numeric shaping branch satisfies the per-entry contract when the
solver values are box-feasible. -/
theorem forall₂_num {courses : List Course} {v : List ℚ}
    (hlen : v.length = courses.length) (hbox : ∀ x ∈ v, 0 ≤ x ∧ x ≤ 100) :
    List.Forall₂ EntryOk courses
      (List.zipWith (fun c x => (⟨c.name, c.credit, Score.num (round2 x)⟩ : ResultEntry))
        courses v) := by
  induction courses generalizing v with
  | nil => exact List.Forall₂.nil
  | cons c cs ih =>
    cases v with
    | nil => simp at hlen
    | cons x xs =>
      rw [List.zipWith_cons_cons]
      have hx := hbox x (List.mem_cons_self x xs)
      refine List.Forall₂.cons ⟨rfl, rfl, Or.inr ?_⟩
        (ih (by simpa using hlen) fun y hy => hbox y (List.mem_cons_of_mem _ hy))
      exact ⟨round2 x, rfl, round2_nonneg hx.1, round2_le_hundred hx.2,
        roundHalfEven (x * 100), (round2_mul_hundred x).symm ▸ rfl⟩

/-- Every entry of the numeric shaping branch carries a rounded score in
[0, 100] with at most two decimal places. -/
theorem zipWith_score_mem {courses : List Course} {v : List ℚ}
    (hbox : ∀ x ∈ v, 0 ≤ x ∧ x ≤ 100) :
    ∀ r ∈ List.zipWith
        (fun c x => (⟨c.name, c.credit, Score.num (round2 x)⟩ : ResultEntry)) courses v,
      ∃ q, r.score = Score.num q ∧ 0 ≤ q ∧ q ≤ 100 := by
  induction courses generalizing v with
  | nil => intro r hr; simp at hr
  | cons c cs ih =>
    cases v with
    | nil => intro r hr; simp at hr
    | cons x xs =>
      intro r hr
      rw [List.zipWith_cons_cons] at hr
      rcases List.mem_cons.mp hr with rfl | hr2
      · have hx := hbox x (List.mem_cons_self x xs)
        exact ⟨round2 x, rfl, round2_nonneg hx.1, round2_le_hundred hx.2⟩
      · exact ih (fun y hy => hbox y (List.mem_cons_of_mem _ hy)) r hr2

/-- When the solver values are all zero, every shaped score is the
number 0. -/
theorem zipWith_zero_scores (courses : List Course) (z : List ℚ)
    (hz : ∀ x ∈ z, x = 0) :
    ∀ r ∈ List.zipWith
        (fun c x => (⟨c.name, c.credit, Score.num (round2 x)⟩ : ResultEntry)) courses z,
      r.score = Score.num 0 := by
  induction courses generalizing z with
  | nil => intro r hr; simp at hr
  | cons c cs ih =>
    cases z with
    | nil => intro r hr; simp at hr
    | cons x xs =>
      intro r hr
      rw [List.zipWith_cons_cons] at hr
      rcases List.mem_cons.mp hr with rfl | hr2
      · have hx : x = 0 := hz x (List.mem_cons_self x xs)
        simp [hx, round2_zero]
      · exact ih xs (fun y hy => hz y (List.mem_cons_of_mem _ hy)) r hr2

/-- Scenario C of the spec evaluated on the code: one course of credit 3,
current average 90 over 30 credits, target 85; the suggested score is
exactly 35 and the status is "optimal". -/
theorem scenarioC_eval :
    predict_scores_cvxpy [⟨"A", 3⟩] 30 90 85 = ([⟨"A", 3, Score.num 35⟩], OPTIMAL) := by
  have hR : requiredPoints [⟨"A", 3⟩] 30 90 85 = 105 := by norm_num [requiredPoints]
  rw [predict_eq, hR, idealSolve_mid (by norm_num) (by norm_num)]
  rw [shapeResults_some_opt _ _ _ (Or.inl rfl)]
  norm_num
  rw [round2_eq_of_half 35 3500 (by norm_num) (by norm_num)]
  norm_num

/-- C1, amended. For every non-empty course list with positive credits
and valid academic state where `0 < required_points <= sum credits * 100`:
any optimal point of the linear program attains the weighted total
`required_points` exactly (the unique minimum); the solve reports
"optimal"; the weighted total of the returned two-decimal-rounded scores
equals `required_points` within the absolute rounding tolerance
`sum credits / 200` (not the 1e-6 relative tolerance the claim states,
which fails: see the counterexample); and Scenario C returns the single
score 35. -/
theorem claim_C1 (courses : List Course) (ctc cur target : ℚ)
    (hne : courses ≠ []) (hpos : ∀ c ∈ courses, 0 < c.credit)
    (hctc : 0 ≤ ctc) (hcur0 : 0 ≤ cur) (hcur1 : cur ≤ 100)
    (htg0 : 0 ≤ target) (htg1 : target ≤ 100)
    (h0 : 0 < requiredPoints courses ctc cur target)
    (h100 : requiredPoints courses ctc cur target ≤
      100 * (courses.map fun c => c.credit).sum) :
    (∀ v, IsOptimal (courses.map fun c => c.credit)
        (requiredPoints courses ctc cur target) v →
      dot (courses.map fun c => c.credit) v = requiredPoints courses ctc cur target) ∧
    (predict_scores_cvxpy courses ctc cur target).2 = OPTIMAL ∧
    |resultTotal (predict_scores_cvxpy courses ctc cur target).1 -
        requiredPoints courses ctc cur target| ≤
      (courses.map fun c => c.credit).sum / 200 ∧
    predict_scores_cvxpy [⟨"A", 3⟩] 30 90 85 = ([⟨"A", 3, Score.num 35⟩], OPTIMAL) := by
  have hcpos : ∀ x ∈ courses.map fun c => c.credit, 0 < x := by
    intro x hx
    obtain ⟨c, hc, rfl⟩ := List.mem_map.mp hx
    exact hpos c hc
  have hcnn : ∀ x ∈ courses.map fun c => c.credit, 0 ≤ x := fun x hx => (hcpos x hx).le
  have hcne : (courses.map fun c => c.credit) ≠ [] := by
    intro hmap
    exact hne (List.map_eq_nil_iff.mp hmap)
  have hsum : 0 < (courses.map fun c => c.credit).sum :=
    List.sum_pos _ hcpos hcne
  have hpred1 : (predict_scores_cvxpy courses ctc cur target).1 =
      List.zipWith (fun c x => (⟨c.name, c.credit, Score.num (round2 x)⟩ : ResultEntry))
        courses ((courses.map fun c => c.credit).map
          fun _ => requiredPoints courses ctc cur target /
            (courses.map fun c => c.credit).sum) := by
    rw [predict_eq, idealSolve_mid (not_le.mpr h0) h100,
      shapeResults_some_opt _ _ _ (Or.inl rfl)]
  have hpred2 : (predict_scores_cvxpy courses ctc cur target).2 = OPTIMAL := by
    rw [predict_eq, idealSolve_mid (not_le.mpr h0) h100,
      shapeResults_some_opt _ _ _ (Or.inl rfl)]
  refine ⟨fun v hv => optimal_value_eq hsum h0 h100 hv, hpred2, ?_, scenarioC_eval⟩
  rw [hpred1, resultTotal_zipWith]
  have hlen : ((courses.map fun c => c.credit).map
      fun _ => requiredPoints courses ctc cur target /
        (courses.map fun c => c.credit).sum).length =
      (courses.map fun c => c.credit).length := by simp
  have hge := dot_map_round2_ge hcnn hlen
  have hle := dot_map_round2_le hcnn hlen
  have hdu : dot (courses.map fun c => c.credit)
      ((courses.map fun c => c.credit).map
        fun _ => requiredPoints courses ctc cur target /
          (courses.map fun c => c.credit).sum) =
      requiredPoints courses ctc cur target := by
    rw [dot_map_const]
    exact div_mul_cancel₀ _ hsum.ne'
  rw [hdu] at hge hle
  exact abs_le.mpr ⟨by linarith, by linarith⟩

/-- C1 witness: one course of credit 2, 10 prior credits at average 50,
target 55, giving required_points 160 within (0, 200]. -/
theorem claim_C1_witness :
    (∀ v, IsOptimal (([⟨"B", 2⟩] : List Course).map fun c => c.credit)
        (requiredPoints [⟨"B", 2⟩] 10 50 55) v →
      dot (([⟨"B", 2⟩] : List Course).map fun c => c.credit) v =
        requiredPoints [⟨"B", 2⟩] 10 50 55) ∧
    (predict_scores_cvxpy [⟨"B", 2⟩] 10 50 55).2 = OPTIMAL ∧
    |resultTotal (predict_scores_cvxpy [⟨"B", 2⟩] 10 50 55).1 -
        requiredPoints [⟨"B", 2⟩] 10 50 55| ≤
      (([⟨"B", 2⟩] : List Course).map fun c => c.credit).sum / 200 ∧
    predict_scores_cvxpy [⟨"A", 3⟩] 30 90 85 = ([⟨"A", 3, Score.num 35⟩], OPTIMAL) :=
  claim_C1 [⟨"B", 2⟩] 10 50 55 (by decide) (by decide) (by norm_num) (by norm_num)
    (by norm_num) (by norm_num) (by norm_num) (by norm_num [requiredPoints])
    (by norm_num [requiredPoints])

/-- Evaluation of the code at the C1 counterexample input: one course of
credit 3, empty history, target 35.004, so required_points = 105.012; the
exact optimum 35.004 rounds down to 35.00. -/
theorem C1cex_eval :
    predict_scores_cvxpy [⟨"A", 3⟩] 0 0 (35004/1000) =
      ([⟨"A", 3, Score.num 35⟩], OPTIMAL) := by
  have hR : requiredPoints [⟨"A", 3⟩] 0 0 (35004/1000) = 26253/250 := by
    norm_num [requiredPoints]
  rw [predict_eq, hR, idealSolve_mid (by norm_num) (by norm_num)]
  rw [shapeResults_some_opt _ _ _ (Or.inl rfl)]
  norm_num
  rw [round2_eq_of_half (8751/250) 3500 (by norm_num) (by norm_num)]
  norm_num

/-- C1 counterexample. At courses = [("A", 3)], empty history and target
average 35.004 (a valid input satisfying every hypothesis of the claim:
0 < required_points = 105.012 <= 300), the status is OPTIMAL but the
weighted total of the returned rounded scores is 3 * 35.00 = 105, which
differs from required_points by 0.012 — far more than the stated 1e-6
relative tolerance. -/
theorem claim_C1_counterexample :
    (predict_scores_cvxpy [⟨"A", 3⟩] 0 0 (35004/1000)).2 = OPTIMAL ∧
    ¬ (|resultTotal (predict_scores_cvxpy [⟨"A", 3⟩] 0 0 (35004/1000)).1 -
          requiredPoints [⟨"A", 3⟩] 0 0 (35004/1000)| ≤
        (1/1000000) * requiredPoints [⟨"A", 3⟩] 0 0 (35004/1000)) := by
  have hR : requiredPoints [⟨"A", 3⟩] 0 0 (35004/1000) = 26253/250 := by
    norm_num [requiredPoints]
  refine ⟨by rw [C1cex_eval], ?_⟩
  rw [C1cex_eval, hR]
  rw [abs_le]
  intro h
  have h1 := h.1
  norm_num [resultTotal, scoreValue] at h1

/-- C2: for every input with positive credits where required_points
exceeds `100 * sum credits`, the linear program is infeasible and the
solve returns status "infeasible"; Scenario A (three credit-3 courses,
78 prior credits at average 78.5, target 85, required_points 1272 > 900)
yields INFEASIBLE. -/
theorem claim_C2 (courses : List Course) (ctc cur target : ℚ)
    (hpos : ∀ c ∈ courses, 0 < c.credit)
    (h : 100 * (courses.map fun c => c.credit).sum < requiredPoints courses ctc cur target) :
    (¬ ∃ s, Feasible (courses.map fun c => c.credit)
        (requiredPoints courses ctc cur target) s) ∧
    (predict_scores_cvxpy courses ctc cur target).2 = INFEASIBLE ∧
    (predict_scores_cvxpy [⟨"A", 3⟩, ⟨"B", 3⟩, ⟨"C", 3⟩] 78 (157/2) 85).2 = INFEASIBLE := by
  have hcnn : ∀ x ∈ courses.map fun c => c.credit, 0 ≤ x := by
    intro x hx
    obtain ⟨c, hc, rfl⟩ := List.mem_map.mp hx
    exact (hpos c hc).le
  have hsnn : 0 ≤ (courses.map fun c => c.credit).sum := List.sum_nonneg hcnn
  have hRpos : 0 < requiredPoints courses ctc cur target := by linarith
  refine ⟨not_feasible_of_gt hcnn h, ?_, ?_⟩
  · rw [predict_eq, idealSolve_high (not_le.mpr hRpos) (not_le.mpr h)]
    rfl
  · have hR : requiredPoints [⟨"A", 3⟩, ⟨"B", 3⟩, ⟨"C", 3⟩] 78 (157/2) 85 = 1272 := by
      norm_num [requiredPoints]
    rw [predict_eq, hR, idealSolve_high (by norm_num) (by norm_num)]
    rfl

/-- C2 witness: Scenario A itself discharges the hypotheses. -/
theorem claim_C2_witness :
    (¬ ∃ s, Feasible (([⟨"A", 3⟩, ⟨"B", 3⟩, ⟨"C", 3⟩] : List Course).map fun c => c.credit)
        (requiredPoints [⟨"A", 3⟩, ⟨"B", 3⟩, ⟨"C", 3⟩] 78 (157/2) 85) s) ∧
    (predict_scores_cvxpy [⟨"A", 3⟩, ⟨"B", 3⟩, ⟨"C", 3⟩] 78 (157/2) 85).2 = INFEASIBLE ∧
    (predict_scores_cvxpy [⟨"A", 3⟩, ⟨"B", 3⟩, ⟨"C", 3⟩] 78 (157/2) 85).2 = INFEASIBLE :=
  claim_C2 [⟨"A", 3⟩, ⟨"B", 3⟩, ⟨"C", 3⟩] 78 (157/2) 85 (by decide)
    (by norm_num [requiredPoints])

/-- C3, amended. For every OPTIMAL result shaped from a feasible solver
point, the weighted total of the returned rounded scores is at least
`required_points` minus the absolute rounding tolerance
`sum credits / 200` (not the 1e-6 relative tolerance the claim states,
which fails: see the counterexample), and every returned score is a
number in [0, 100]. -/
theorem claim_C3 (courses : List Course) (ctc cur target : ℚ) (v : List ℚ)
    (hpos : ∀ c ∈ courses, 0 < c.credit)
    (hfeas : Feasible (courses.map fun c => c.credit)
      (requiredPoints courses ctc cur target) v) :
    requiredPoints courses ctc cur target -
        (courses.map fun c => c.credit).sum / 200 ≤
      resultTotal (shapeResults courses OPTIMAL (some v)).1 ∧
    ∀ r ∈ (shapeResults courses OPTIMAL (some v)).1,
      ∃ q, r.score = Score.num q ∧ 0 ≤ q ∧ q ≤ 100 := by
  obtain ⟨hlen, hbox, hdot⟩ := hfeas
  have hcnn : ∀ x ∈ courses.map fun c => c.credit, 0 ≤ x := by
    intro x hx
    obtain ⟨c, hc, rfl⟩ := List.mem_map.mp hx
    exact (hpos c hc).le
  have h1 : (shapeResults courses OPTIMAL (some v)).1 =
      List.zipWith (fun c x => (⟨c.name, c.credit, Score.num (round2 x)⟩ : ResultEntry))
        courses v := by
    rw [shapeResults_some_opt _ _ _ (Or.inl rfl)]
  constructor
  · rw [h1, resultTotal_zipWith]
    have hge := dot_map_round2_ge hcnn hlen
    linarith
  · rw [h1]
    exact zipWith_score_mem hbox

/-- C3 witness: one course of credit 2, required_points 40, solver point
[50]. -/
theorem claim_C3_witness :
    requiredPoints [⟨"A", 2⟩] 0 0 20 -
        (([⟨"A", 2⟩] : List Course).map fun c => c.credit).sum / 200 ≤
      resultTotal (shapeResults [⟨"A", 2⟩] OPTIMAL (some [50])).1 ∧
    ∀ r ∈ (shapeResults [⟨"A", 2⟩] OPTIMAL (some [50])).1,
      ∃ q, r.score = Score.num q ∧ 0 ≤ q ∧ q ≤ 100 :=
  claim_C3 [⟨"A", 2⟩] 0 0 20 [50] (by decide)
    ⟨rfl, by decide, by norm_num [requiredPoints, dot]⟩

/-- Evaluation of the code at the C3 counterexample input: one course of
credit 3, empty history, target 35.003, so required_points = 105.009; the
exact optimum 35.003 rounds down to 35.00. -/
theorem C3cex_eval :
    predict_scores_cvxpy [⟨"A", 3⟩] 0 0 (35003/1000) =
      ([⟨"A", 3, Score.num 35⟩], OPTIMAL) := by
  have hR : requiredPoints [⟨"A", 3⟩] 0 0 (35003/1000) = 105009/1000 := by
    norm_num [requiredPoints]
  rw [predict_eq, hR, idealSolve_mid (by norm_num) (by norm_num)]
  rw [shapeResults_some_opt _ _ _ (Or.inl rfl)]
  norm_num
  rw [round2_eq_of_half (35003/1000) 3500 (by norm_num) (by norm_num)]
  norm_num

/-- C3 counterexample. At courses = [("A", 3)], empty history and target
average 35.003, the result is OPTIMAL with returned weighted total
3 * 35.00 = 105, which falls short of required_points = 105.009 by more
than the stated 1e-6 relative tolerance. -/
theorem claim_C3_counterexample :
    (predict_scores_cvxpy [⟨"A", 3⟩] 0 0 (35003/1000)).2 = OPTIMAL ∧
    ¬ (requiredPoints [⟨"A", 3⟩] 0 0 (35003/1000) -
          (1/1000000) * requiredPoints [⟨"A", 3⟩] 0 0 (35003/1000) ≤
        resultTotal (predict_scores_cvxpy [⟨"A", 3⟩] 0 0 (35003/1000)).1) := by
  have hR : requiredPoints [⟨"A", 3⟩] 0 0 (35003/1000) = 105009/1000 := by
    norm_num [requiredPoints]
  refine ⟨by rw [C3cex_eval], ?_⟩
  rw [C3cex_eval, hR]
  norm_num [resultTotal, scoreValue]

/-- C4: for every input with positive credits where required_points is
non-positive, every optimal point of the linear program is all-zero, and
the solve returns status "optimal" with every returned score the number
0. -/
theorem claim_C4 (courses : List Course) (ctc cur target : ℚ)
    (hpos : ∀ c ∈ courses, 0 < c.credit)
    (hreq : requiredPoints courses ctc cur target ≤ 0) :
    (∀ v, IsOptimal (courses.map fun c => c.credit)
        (requiredPoints courses ctc cur target) v → ∀ x ∈ v, x = 0) ∧
    (predict_scores_cvxpy courses ctc cur target).2 = OPTIMAL ∧
    ∀ r ∈ (predict_scores_cvxpy courses ctc cur target).1, r.score = Score.num 0 := by
  have hcpos : ∀ x ∈ courses.map fun c => c.credit, 0 < x := by
    intro x hx
    obtain ⟨c, hc, rfl⟩ := List.mem_map.mp hx
    exact hpos c hc
  refine ⟨fun v hv => optimal_zero_scores hcpos hreq hv, ?_, ?_⟩
  · rw [predict_eq, idealSolve_nonpos hreq, shapeResults_some_opt _ _ _ (Or.inl rfl)]
  · rw [predict_eq, idealSolve_nonpos hreq, shapeResults_some_opt _ _ _ (Or.inl rfl)]
    exact zipWith_zero_scores courses _ (by
      intro x hx
      obtain ⟨c, _, rfl⟩ := List.mem_map.mp hx
      rfl)

/-- C4 witness: one course of credit 3, 30 prior credits at average 90,
target 80, giving required_points = -60. -/
theorem claim_C4_witness :
    (∀ v, IsOptimal (([⟨"A", 3⟩] : List Course).map fun c => c.credit)
        (requiredPoints [⟨"A", 3⟩] 30 90 80) v → ∀ x ∈ v, x = 0) ∧
    (predict_scores_cvxpy [⟨"A", 3⟩] 30 90 80).2 = OPTIMAL ∧
    ∀ r ∈ (predict_scores_cvxpy [⟨"A", 3⟩] 30 90 80).1, r.score = Score.num 0 :=
  claim_C4 [⟨"A", 3⟩] 30 90 80 (by decide) (by norm_num [requiredPoints])

/-- C5: the constraint threshold is
`required_points = target_average * (current_total_credits + sum credits)
- current_average * current_total_credits`, and on Scenario A it
evaluates to 85 * 87 - 78.5 * 78 = 1272. -/
theorem claim_C5 (courses : List Course) (ctc cur target : ℚ) :
    requiredPoints courses ctc cur target =
      target * (ctc + (courses.map fun c => c.credit).sum) - cur * ctc ∧
    requiredPoints [⟨"A", 3⟩, ⟨"B", 3⟩, ⟨"C", 3⟩] 78 (157/2) 85 = 1272 :=
  ⟨rfl, by norm_num [requiredPoints]⟩

/-- C6: on the empty course list the solve is total and returns
"infeasible" when required_points > 0 (the constraint system is indeed
unsatisfiable) and "optimal" with an empty score list when
required_points = 0. -/
theorem claim_C6 (ctc cur target : ℚ) :
    (0 < requiredPoints [] ctc cur target →
      predict_scores_cvxpy [] ctc cur target = ([], INFEASIBLE) ∧
      ¬ ∃ s, Feasible [] (requiredPoints [] ctc cur target) s) ∧
    (requiredPoints [] ctc cur target = 0 →
      predict_scores_cvxpy [] ctc cur target = ([], OPTIMAL)) := by
  constructor
  · intro h
    constructor
    · rw [predict_eq, idealSolve_high (not_le.mpr h) (by simpa using not_le.mpr h)]
      rfl
    · rintro ⟨s, hlen, hbox, hdot⟩
      have hs : s = [] := List.length_eq_zero.mp (by simpa using hlen)
      subst hs
      simp [dot] at hdot
      linarith
  · intro h
    rw [predict_eq, idealSolve_nonpos (le_of_eq h)]
    rw [shapeResults_some_opt _ _ _ (Or.inl rfl)]
    rfl

/-- C6 witness: empty course list with required_points = 150 > 0
(infeasible case) and with required_points = 0 (optimal case). -/
theorem claim_C6_witness :
    predict_scores_cvxpy [] 30 90 95 = ([], INFEASIBLE) ∧
    predict_scores_cvxpy [] 30 90 90 = ([], OPTIMAL) :=
  ⟨((claim_C6 30 90 95).1 (by norm_num [requiredPoints])).1,
   (claim_C6 30 90 90).2 (by norm_num [requiredPoints])⟩

/-- C7 counterexample. No single marker value can make the returned
status range over a three-element set {OPTIMAL, INFEASIBLE, marker}: the
code passes the raw solver status through, so the statuses "unbounded"
and "solver_error" (both possible cvxpy terminations that are neither
optimal nor infeasible) surface unchanged as two distinct non-OPTIMAL,
non-INFEASIBLE result statuses, and neither is mapped to any
NUMERICAL_ISSUE marker. -/
theorem claim_C7_counterexample :
    ¬ ∃ m : String, ∀ st : String, ∀ ov : Option (List ℚ),
      (shapeResults [⟨"A", 3⟩] st ov).2 = OPTIMAL ∨
      (shapeResults [⟨"A", 3⟩] st ov).2 = INFEASIBLE ∨
      (shapeResults [⟨"A", 3⟩] st ov).2 = m := by
  rintro ⟨m, h⟩
  have e1 : (shapeResults [⟨"A", 3⟩] "unbounded" none).2 = "unbounded" := rfl
  have e2 : (shapeResults [⟨"A", 3⟩] "solver_error" none).2 = "solver_error" := rfl
  rcases h "unbounded" none with h1 | h1 | h1
  · rw [e1] at h1
    exact absurd h1 (by decide)
  · rw [e1] at h1
    exact absurd h1 (by decide)
  · rcases h "solver_error" none with h2 | h2 | h2
    · rw [e2] at h2
      exact absurd h2 (by decide)
    · rw [e2] at h2
      exact absurd h2 (by decide)
    · rw [e1] at h1
      rw [e2] at h2
      exact absurd (h1.trans h2.symm) (by decide)

/-- C7, amended. The function returns the raw solver status unchanged —
the status set is not restricted to three values and no NUMERICAL_ISSUE
marker exists — and whenever the status is not optimal-family or no
values are available, every per-course score is the "N/A" marker. -/
theorem claim_C7 (courses : List Course) (st : String) (ov : Option (List ℚ)) :
    (shapeResults courses st ov).2 = st ∧
    (((st ≠ OPTIMAL ∧ st ≠ OPTIMAL_INACCURATE) ∨ ov = none) →
      ∀ r ∈ (shapeResults courses st ov).1, r.score = Score.na) := by
  constructor
  · cases ov with
    | none => rfl
    | some v =>
      by_cases h : st = OPTIMAL ∨ st = OPTIMAL_INACCURATE
      · rw [shapeResults_some_opt _ _ _ h]
      · rw [shapeResults_some_not_opt _ _ _ h]
  · intro h r hr
    cases ov with
    | none =>
      rw [shapeResults_none] at hr
      obtain ⟨c, _, rfl⟩ := List.mem_map.mp hr
      rfl
    | some v =>
      rcases h with h | h
      · rw [shapeResults_some_not_opt _ _ _ (fun hor => hor.elim h.1 h.2)] at hr
        obtain ⟨c, _, rfl⟩ := List.mem_map.mp hr
        rfl
      · exact Option.noConfusion h

/-- C7 witness: the status "solver_error" with no values passes through
unchanged and every score is "N/A". -/
theorem claim_C7_witness :
    (shapeResults [⟨"A", 3⟩] "solver_error" none).2 = "solver_error" ∧
    ∀ r ∈ (shapeResults [⟨"A", 3⟩] "solver_error" none).1, r.score = Score.na :=
  ⟨(claim_C7 [⟨"A", 3⟩] "solver_error" none).1,
   (claim_C7 [⟨"A", 3⟩] "solver_error" none).2 (Or.inr rfl)⟩

/-- C8: evaluation of the code at the failing input. A course with zero
credit (invalid per the spec) is not rejected: the function runs the
solve anyway and produces the ordinary solver status "optimal" with a
suggested score of 0, contradicting the claim that no solver status is
produced for such input. -/
theorem claim_C8 :
    predict_scores_cvxpy [⟨"A", 0⟩] 30 90 85 = ([⟨"A", 0, Score.num 0⟩], OPTIMAL) := by
  have hR : requiredPoints [⟨"A", 0⟩] 30 90 85 = -150 := by norm_num [requiredPoints]
  rw [predict_eq, hR, idealSolve_nonpos (by norm_num)]
  rw [shapeResults_some_opt _ _ _ (Or.inl rfl)]
  simp [round2_zero]

/-- C9: whenever the solver values (if any) are box-feasible and of the
right length, the result list has exactly one entry per course, in
order, with name and credit copied unchanged and each score either the
"N/A" marker or a number in [0, 100] with at most two decimal places. -/
theorem claim_C9 (courses : List Course) (st : String) (ov : Option (List ℚ))
    (hov : ∀ v, ov = some v → v.length = courses.length ∧ ∀ x ∈ v, 0 ≤ x ∧ x ≤ 100) :
    List.Forall₂ EntryOk courses (shapeResults courses st ov).1 := by
  cases ov with
  | none =>
    rw [shapeResults_none]
    exact forall₂_na courses
  | some v =>
    by_cases h : st = OPTIMAL ∨ st = OPTIMAL_INACCURATE
    · rw [shapeResults_some_opt _ _ _ h]
      exact forall₂_num (hov v rfl).1 (hov v rfl).2
    · rw [shapeResults_some_not_opt _ _ _ h]
      exact forall₂_na courses

/-- C9 witness: one course with solver value [50]. -/
theorem claim_C9_witness :
    List.Forall₂ EntryOk [⟨"A", 3⟩] (shapeResults [⟨"A", 3⟩] OPTIMAL (some [50])).1 :=
  claim_C9 [⟨"A", 3⟩] OPTIMAL (some [50]) (by
    intro v hv
    rw [Option.some.injEq] at hv
    subst hv
    exact ⟨rfl, by decide⟩)

/-- C10: when the status is optimal-family but the solver provides no
values, the guard of line 169 sends execution to the "N/A" branch: a
full result list is returned, one entry per course, every score "N/A". -/
theorem claim_C10 (courses : List Course) (st : String)
    (h : st = OPTIMAL ∨ st = OPTIMAL_INACCURATE) :
    shapeResults courses st none =
      (courses.map fun c => (⟨c.name, c.credit, Score.na⟩ : ResultEntry), st) ∧
    (shapeResults courses st none).1.length = courses.length := by
  refine ⟨shapeResults_none courses st, ?_⟩
  rw [shapeResults_none]
  simp

/-- C10 witness: status "optimal" with value None. -/
theorem claim_C10_witness :
    shapeResults [⟨"A", 3⟩] OPTIMAL none =
      (([⟨"A", 3⟩] : List Course).map fun c => (⟨c.name, c.credit, Score.na⟩ : ResultEntry),
        OPTIMAL) ∧
    (shapeResults [⟨"A", 3⟩] OPTIMAL none).1.length = ([⟨"A", 3⟩] : List Course).length :=
  claim_C10 [⟨"A", 3⟩] OPTIMAL (Or.inl rfl)

end CWA
